import Mathlib

/-!
Verification of the PNG chunk-patching utility `src/lib/image/png.ts`.

Byte buffers (`ArrayBuffer`/`DataView`) are embedded as `List Nat` (one entry
per byte).  `DataView` getters throw a `RangeError` on out-of-bounds access;
they are embedded as `Option`-returning readers.  Functions of the source that
throw are embedded with a `JsResult` codomain; the `while` loop of
`readChunks` is embedded with an explicit fuel parameter, with a dedicated
`timeout` outcome marking fuel exhaustion (i.e. the loop is still running).
-/

/-- Outcome of a fallible JS computation: a value, a thrown exception, or a
still-running loop (fuel ran out). -/
inductive JsResult (α : Type) where
  | ok : α → JsResult α
  | thrown : JsResult α
  | timeout : JsResult α
deriving DecidableEq

/-- Embedding of `DataView.getUint8`: the byte at index `i`, or `none` when the read is out
of bounds (the source's `RangeError`). -/
def getU8? (buf : List Nat) (i : Int) : Option Nat :=
  if h : 0 ≤ i ∧ i.toNat < buf.length then some (buf.get ⟨i.toNat, h.2⟩) else none

/-- Embedding of `DataView.getUint32` (big-endian, the source never passes
`littleEndian`): four bytes combined most-significant first. -/
def getU32? (buf : List Nat) (i : Int) : Option Nat := do
  let b0 ← getU8? buf i
  let b1 ← getU8? buf (i + 1)
  let b2 ← getU8? buf (i + 2)
  let b3 ← getU8? buf (i + 3)
  pure (b0 * 16777216 + b1 * 65536 + b2 * 256 + b3)

/-- Embedding of `DataView.getInt32` (big-endian): the same four bytes, reinterpreted as a
signed two's-complement 32-bit integer. -/
def getI32? (buf : List Nat) (i : Int) : Option Int :=
  (getU32? buf i).map (fun n =>
    if n < 2147483648 then (n : Int) else (n : Int) - 4294967296)

/-- The byte values of the chunk-type string `"IDAT"`. -/
def tyIDAT : List Nat := [73, 68, 65, 84]

/-- The byte values of the chunk-type string `"IEND"`. -/
def tyIEND : List Nat := [73, 69, 78, 68]

/-- The byte values of the chunk-type string `"pHYs"`. -/
def tyPHYS : List Nat := [112, 72, 89, 115]

/-- The constant `PNG_CONSTANTS.SIGNATURE` from the source. -/
def pngSig : List Nat := [137, 80, 78, 71, 13, 10, 26, 10]

/-- The byte-by-byte signature comparison performed by
`PNG_CONSTANTS.SIGNATURE.every((byte, index) => view.getUint8(offset + index) === byte)`:
short-circuits on the first mismatching byte; an out-of-bounds read throws,
which `isPng` catches and turns into `false`, so the whole computation is
embedded as a `Bool`. -/
def isPngAux (buf : List Nat) (offset : Int) : List Nat → Int → Bool
  | [], _ => true
  | b :: rest, i =>
    match getU8? buf (offset + i) with
    | none => false
    | some v => if v = b then isPngAux buf offset rest (i + 1) else false

/-- Embedding of `PngHelpers.isPng` (src/lib/image/png.ts:112). -/
def isPng (buf : List Nat) (offset : Int) : Bool :=
  isPngAux buf offset pngSig 0

/-- Embedding of `PngHelpers.getChunkType` (src/lib/image/png.ts:126): four consecutive
bytes; `none` models the re-thrown read failure.  The source returns the bytes
as a 4-character string; chunk types are kept here as their byte values (the
`String.fromCharCode` encoding is a bijection on byte values). -/
def getChunkType? (buf : List Nat) (offset : Int) : Option (List Nat) := do
  let b0 ← getU8? buf offset
  let b1 ← getU8? buf (offset + 1)
  let b2 ← getU8? buf (offset + 2)
  let b3 ← getU8? buf (offset + 3)
  pure [b0, b1, b2, b3]

/-- The `PngChunk` record of the source: `{start, dataOffset, size}`.
`size` comes from `getInt32` and is therefore a signed value. -/
structure PngChunk where
  start : Int
  dataOffset : Int
  size : Int
deriving DecidableEq

/-- The `Record<string, PngChunk>` chunk table, embedded as an association
list in insertion order (JS object string-key semantics). -/
def ChunkTable : Type := List (List Nat × PngChunk)

instance : DecidableEq ChunkTable := by
  unfold ChunkTable
  infer_instance

/-- JS property lookup `chunks[type]`. -/
def recGet (t : ChunkTable) (k : List Nat) : Option PngChunk :=
  match t with
  | [] => none
  | (k', v) :: rest => if k' = k then some v else recGet rest k

/-- JS property assignment `chunks[type] = v`: overwrites in place when the
key exists, otherwise appends. -/
def recSet (t : ChunkTable) (k : List Nat) (v : PngChunk) : ChunkTable :=
  match t with
  | [] => [(k, v)]
  | (k', v') :: rest => if k' = k then (k, v) :: rest else (k', v') :: recSet rest k v

/-- The `while (offset <= view.buffer.byteLength)` loop of
`PngHelpers.readChunks` (src/lib/image/png.ts:149-173), with explicit fuel.
Each iteration: read the 4-byte signed length, read the chunk type, skip
duplicate `IDAT` chunks, stop at `IEND`, otherwise store
`{start, dataOffset: start+8, size: len}` and advance by `len + 4 + 4` from
the post-length position.  A failed read is the caught-and-rethrown error. -/
def readChunksLoop (buf : List Nat) : Nat → Int → ChunkTable → JsResult ChunkTable
  | 0, _, _ => .timeout
  | fuel + 1, offset, chunks =>
    if offset > (buf.length : Int) then .ok chunks
    else
      match getI32? buf offset with
      | none => .thrown
      | some len =>
        match getChunkType? buf (offset + 4) with
        | none => .thrown
        | some ty =>
          if ty = tyIDAT ∧ (recGet chunks tyIDAT).isSome then
            readChunksLoop buf fuel (offset + 4 + len + 8) chunks
          else if ty = tyIEND then .ok chunks
          else
            readChunksLoop buf fuel (offset + 4 + len + 8)
              (recSet chunks ty ⟨offset, offset + 8, len⟩)

/-- Embedding of `PngHelpers.readChunks` (src/lib/image/png.ts:140): checks the signature
(throwing on mismatch), then scans from `offset + 8`. -/
def readChunksFuel (buf : List Nat) (fuel : Nat) (offset : Int) : JsResult ChunkTable :=
  if isPng buf offset then readChunksLoop buf fuel (offset + 8) [] else .thrown

/-- Embedding of `PngHelpers.findChunk` (src/lib/image/png.ts:201): runs `readChunks` from
offset 0 and looks the type up; a `readChunks` failure is caught and
re-thrown. -/
def findChunkRes (buf : List Nat) (ty : List Nat) (fuel : Nat) : JsResult (Option PngChunk) :=
  match readChunksFuel buf fuel 0 with
  | .ok t => .ok (recGet t ty)
  | .thrown => .thrown
  | .timeout => .timeout

/-- The `PhysicalDimensions` record of the source. -/
structure PhysicalDimensions where
  ppux : Nat
  ppuy : Nat
  unit : Nat
deriving DecidableEq

/-- Embedding of `PngHelpers.parsePhys` (src/lib/image/png.ts:185): note that the source
reads the unit byte with `view.getUint8(offset + 4)`. -/
def parsePhys (buf : List Nat) (offset : Int) : JsResult PhysicalDimensions :=
  match getU32? buf offset, getU32? buf (offset + 4), getU8? buf (offset + 4) with
  | some x, some y, some u => .ok ⟨x, y, u⟩
  | _, _, _ => .thrown

example : parsePhys [0, 0, 0, 1, 0, 0, 0, 2, 1] 0 = .ok ⟨1, 2, 0⟩ := by decide
example : isPng [137, 80, 78, 71, 13, 10, 26, 10, 0] 0 = true := by decide
example : isPng [137, 80] 0 = false := by decide

/-- The table `CRC_TABLE` (src/lib/image/png.ts:46-90).  The source stores the entries
in an `Int32Array`; they are kept here as their unsigned 32-bit bit
patterns. -/
def crcTable : List Nat := [
  0x00000000, 0x77073096, 0xee0e612c, 0x990951ba, 0x076dc419, 0x706af48f,
  0xe963a535, 0x9e6495a3, 0x0edb8832, 0x79dcb8a4, 0xe0d5e91e, 0x97d2d988,
  0x09b64c2b, 0x7eb17cbd, 0xe7b82d07, 0x90bf1d91, 0x1db71064, 0x6ab020f2,
  0xf3b97148, 0x84be41de, 0x1adad47d, 0x6ddde4eb, 0xf4d4b551, 0x83d385c7,
  0x136c9856, 0x646ba8c0, 0xfd62f97a, 0x8a65c9ec, 0x14015c4f, 0x63066cd9,
  0xfa0f3d63, 0x8d080df5, 0x3b6e20c8, 0x4c69105e, 0xd56041e4, 0xa2677172,
  0x3c03e4d1, 0x4b04d447, 0xd20d85fd, 0xa50ab56b, 0x35b5a8fa, 0x42b2986c,
  0xdbbbc9d6, 0xacbcf940, 0x32d86ce3, 0x45df5c75, 0xdcd60dcf, 0xabd13d59,
  0x26d930ac, 0x51de003a, 0xc8d75180, 0xbfd06116, 0x21b4f4b5, 0x56b3c423,
  0xcfba9599, 0xb8bda50f, 0x2802b89e, 0x5f058808, 0xc60cd9b2, 0xb10be924,
  0x2f6f7c87, 0x58684c11, 0xc1611dab, 0xb6662d3d, 0x76dc4190, 0x01db7106,
  0x98d220bc, 0xefd5102a, 0x71b18589, 0x06b6b51f, 0x9fbfe4a5, 0xe8b8d433,
  0x7807c9a2, 0x0f00f934, 0x9609a88e, 0xe10e9818, 0x7f6a0dbb, 0x086d3d2d,
  0x91646c97, 0xe6635c01, 0x6b6b51f4, 0x1c6c6162, 0x856530d8, 0xf262004e,
  0x6c0695ed, 0x1b01a57b, 0x8208f4c1, 0xf50fc457, 0x65b0d9c6, 0x12b7e950,
  0x8bbeb8ea, 0xfcb9887c, 0x62dd1ddf, 0x15da2d49, 0x8cd37cf3, 0xfbd44c65,
  0x4db26158, 0x3ab551ce, 0xa3bc0074, 0xd4bb30e2, 0x4adfa541, 0x3dd895d7,
  0xa4d1c46d, 0xd3d6f4fb, 0x4369e96a, 0x346ed9fc, 0xad678846, 0xda60b8d0,
  0x44042d73, 0x33031de5, 0xaa0a4c5f, 0xdd0d7cc9, 0x5005713c, 0x270241aa,
  0xbe0b1010, 0xc90c2086, 0x5768b525, 0x206f85b3, 0xb966d409, 0xce61e49f,
  0x5edef90e, 0x29d9c998, 0xb0d09822, 0xc7d7a8b4, 0x59b33d17, 0x2eb40d81,
  0xb7bd5c3b, 0xc0ba6cad, 0xedb88320, 0x9abfb3b6, 0x03b6e20c, 0x74b1d29a,
  0xead54739, 0x9dd277af, 0x04db2615, 0x73dc1683, 0xe3630b12, 0x94643b84,
  0x0d6d6a3e, 0x7a6a5aa8, 0xe40ecf0b, 0x9309ff9d, 0x0a00ae27, 0x7d079eb1,
  0xf00f9344, 0x8708a3d2, 0x1e01f268, 0x6906c2fe, 0xf762575d, 0x806567cb,
  0x196c3671, 0x6e6b06e7, 0xfed41b76, 0x89d32be0, 0x10da7a5a, 0x67dd4acc,
  0xf9b9df6f, 0x8ebeeff9, 0x17b7be43, 0x60b08ed5, 0xd6d6a3e8, 0xa1d1937e,
  0x38d8c2c4, 0x4fdff252, 0xd1bb67f1, 0xa6bc5767, 0x3fb506dd, 0x48b2364b,
  0xd80d2bda, 0xaf0a1b4c, 0x36034af6, 0x41047a60, 0xdf60efc3, 0xa867df55,
  0x316e8eef, 0x4669be79, 0xcb61b38c, 0xbc66831a, 0x256fd2a0, 0x5268e236,
  0xcc0c7795, 0xbb0b4703, 0x220216b9, 0x5505262f, 0xc5ba3bbe, 0xb2bd0b28,
  0x2bb45a92, 0x5cb36a04, 0xc2d7ffa7, 0xb5d0cf31, 0x2cd99e8b, 0x5bdeae1d,
  0x9b64c2b0, 0xec63f226, 0x756aa39c, 0x026d930a, 0x9c0906a9, 0xeb0e363f,
  0x72076785, 0x05005713, 0x95bf4a82, 0xe2b87a14, 0x7bb12bae, 0x0cb61b38,
  0x92d28e9b, 0xe5d5be0d, 0x7cdcefb7, 0x0bdbdf21, 0x86d3d2d4, 0xf1d4e242,
  0x68ddb3f8, 0x1fda836e, 0x81be16cd, 0xf6b9265b, 0x6fb077e1, 0x18b74777,
  0x88085ae6, 0xff0f6a70, 0x66063bca, 0x11010b5c, 0x8f659eff, 0xf862ae69,
  0x616bffd3, 0x166ccf45, 0xa00ae278, 0xd70dd2ee, 0x4e048354, 0x3903b3c2,
  0xa7672661, 0xd06016f7, 0x4969474d, 0x3e6e77db, 0xaed16a4a, 0xd9d65adc,
  0x40df0b66, 0x37d83bf0, 0xa9bcae53, 0xdebb9ec5, 0x47b2cf7f, 0x30b5ffe9,
  0xbdbdf21c, 0xcabac28a, 0x53b39330, 0x24b4a3a6, 0xbad03605, 0xcdd70693,
  0x54de5729, 0x23d967bf, 0xb3667a2e, 0xc4614ab8, 0x5d681b02, 0x2a6f2b94,
  0xb40bbe37, 0xc30c8ea1, 0x5a05df1b, 0x2d02ef8d]

/-- One iteration of the loop of `calculateCRC`:
`crc = CRC_TABLE[(crc ^ current[index]) & 0xff] ^ (crc >>> 8)`.
All JS 32-bit bitwise operations are carried out on the unsigned 32-bit bit
patterns, which XOR, AND and unsigned-shift represent exactly. -/
def crcStep (crc b : Nat) : Nat :=
  (crcTable.getD ((crc ^^^ b) &&& 255) 0) ^^^ (crc >>> 8)

/-- The table-driven loop of `calculateCRC`, one byte per step. -/
def crcLoop (crc : Nat) : List Nat → Nat
  | [] => crc
  | b :: rest => crcLoop (crcStep crc b) rest

/-- Embedding of `calculateCRC` (src/lib/image/png.ts:95-103).  The source's `previous`
parameter defaults to `0`; the initial accumulator is
`previous === 0 ? 0 : ~~previous ^ -1` and the result is XORed with `-1`
(`0xffffffff` on bit patterns). -/
def calculateCRC (current : List Nat) (previous : Nat) : Nat :=
  let init := if previous = 0 then 0 else previous ^^^ 4294967295
  crcLoop init current ^^^ 4294967295

/-- Modelled from the spec: the canonical reflected (zlib / PNG) CRC32 the
spec demands — the same table-driven loop, but with the accumulator
initialized to all ones (`-1`) before the loop and XORed with `-1` after
it. -/
def crc32Spec (current : List Nat) : Nat :=
  crcLoop 4294967295 current ^^^ 4294967295

example : calculateCRC [0] 0 = 4294967295 := by decide
example : crc32Spec [0] = 0xd202ef8d := by decide

/-- The four big-endian bytes of a (truncated) 32-bit value, most significant
first — the layout `DataView.setUint32`/`setInt32` writes. -/
def u32be (n : Nat) : List Nat :=
  [n / 16777216 % 256, n / 65536 % 256, n / 256 % 256, n % 256]

/-- The unsigned 32-bit bit pattern `ToInt32` produces for the JS number
`2835.5 * dpr` (`PNG_CONSTANTS.DPI_96 * dpr`, src/lib/image/png.ts:251):
the exact rational `5671 * dpr / 2` truncated toward zero, then reduced
mod `2^32`.  `dpr` is modelled as an exact rational. -/
def physDpiBits (dpr : ℚ) : Nat :=
  ((Int.tdiv (5671 * dpr.num) (2 * (dpr.den : Int))).emod 4294967296).toNat

example : physDpiBits 1 = 2835 := by decide
example : physDpiBits 2 = 5671 := by decide

/-- The 21-byte `pHYs` chunk built by `setPhysChunk`
(src/lib/image/png.ts:238-258): 4-byte length (= 9), the type bytes `pHYs`,
the two 4-byte dimension fields, the unit byte `1`, and the CRC computed by
`calculateCRC` over bytes 4..16 (type + payload, `pHYsData.slice(4, 17)`). -/
def physChunkBytes (dpr : ℚ) : List Nat :=
  let dpi := physDpiBits dpr
  let body := tyPHYS ++ u32be dpi ++ u32be dpi ++ [1]
  u32be 9 ++ body ++ u32be (calculateCRC body 0)

/-- Embedding of `ArrayBuffer.slice` index resolution: a negative index counts from the
end, and indices clamp to the buffer length. -/
def jsIndex (len : Nat) (i : Int) : Nat :=
  if i < 0 then ((len : Int) + i).toNat else min i.toNat len

/-- Embedding of `view.buffer.slice(0, e)` (the bytes before the insertion point). -/
def jsSliceTo (buf : List Nat) (e : Int) : List Nat :=
  buf.take (jsIndex buf.length e)

/-- Embedding of `view.buffer.slice(s)` (the bytes after the replaced range). -/
def jsSliceFrom (buf : List Nat) (s : Int) : List Nat :=
  buf.drop (jsIndex buf.length s)

/-- The `{offset, size}` the source settles on in setPhysChunk
(src/lib/image/png.ts:220-235): start at `(46, 0)`; an existing `pHYs` chunk
replaces it with `(start, size)`; then — unconditionally — an existing `IDAT`
chunk replaces it with `(start, 0)`. -/
def physTargetRange (physChunk idatChunk : Option PngChunk) : Int × Int :=
  let p1 : Int × Int :=
    match physChunk with
    | some p => (p.start, p.size)
    | none => (46, 0)
  match idatChunk with
  | some d => (d.start, 0)
  | none => p1

/-- Embedding of `PngHelpers.setPhysChunk` (src/lib/image/png.ts:214-269): two `findChunk`
calls, the insertion-range selection, the new 21-byte chunk, and the output
`Blob([startBuffer, pHYsData, endBuffer])` flattened to its bytes (the
`options` argument only sets the Blob MIME type and is omitted). -/
def setPhysChunkRes (buf : List Nat) (dpr : ℚ) (fuel : Nat) : JsResult (List Nat) :=
  match findChunkRes buf tyPHYS fuel with
  | .thrown => .thrown
  | .timeout => .timeout
  | .ok physChunk =>
    match findChunkRes buf tyIDAT fuel with
    | .thrown => .thrown
    | .timeout => .timeout
    | .ok idatChunk =>
      let r := physTargetRange physChunk idatChunk
      .ok (jsSliceTo buf r.1 ++ physChunkBytes dpr ++ jsSliceFrom buf (r.1 + r.2))

/-- A PNG chunk as laid out on the wire: type bytes, payload bytes, and the
four stored CRC bytes (`readChunks` never validates CRCs, so they are carried
as data). -/
structure RawChunk where
  ty : List Nat
  data : List Nat
  crc : List Nat
deriving DecidableEq

/-- Serialization of one chunk:
`[4-byte big-endian length][4-byte type][data][4-byte CRC]`. -/
def rawChunkBytes (c : RawChunk) : List Nat :=
  u32be c.data.length ++ c.ty ++ c.data ++ c.crc

/-- Well-formedness of a generated chunk: 4 type bytes and 4 CRC bytes, all
byte-valued data, a type other than `IEND`, and a length below `2^31` (so the
signed length read is the data length). -/
def RawChunk.wf (c : RawChunk) : Prop :=
  c.ty.length = 4 ∧ c.crc.length = 4 ∧ c.ty ≠ tyIEND ∧
  c.data.length < 2147483648 ∧
  (∀ b ∈ c.ty, b < 256) ∧ (∀ b ∈ c.data, b < 256) ∧ (∀ b ∈ c.crc, b < 256)

instance (c : RawChunk) : Decidable c.wf := by
  unfold RawChunk.wf
  infer_instance

/-- The concatenated serialization of a chunk list. -/
def chunksJoin (cs : List RawChunk) : List Nat :=
  (cs.map rawChunkBytes).flatten

/-- The terminating `IEND` chunk: zero-length data and the fixed CRC
`AE 42 60 82`. -/
def iendBytes : List Nat :=
  u32be 0 ++ tyIEND ++ [174, 66, 96, 130]

/-- A well-formed PNG buffer: signature, chunks, and a terminating `IEND`. -/
def buildPng (cs : List RawChunk) : List Nat :=
  pngSig ++ (chunksJoin cs ++ iendBytes)

/-- One chunk's effect on the chunk table during the scan, mirroring the loop
body of `readChunks` for a chunk starting at position `p`: a duplicate `IDAT`
is skipped, anything else is stored under its type. -/
def tableStep (p : Int) (table : ChunkTable) (c : RawChunk) : ChunkTable :=
  if c.ty = tyIDAT ∧ (recGet table tyIDAT).isSome then table
  else recSet table c.ty ⟨p, p + 8, (c.data.length : Int)⟩

/-- The chunk table accumulated over a chunk list whose first chunk starts at
position `p` (each chunk occupies `12 + data length` bytes). -/
def tableOf (p : Int) (table : ChunkTable) : List RawChunk → ChunkTable
  | [] => table
  | c :: rest => tableOf (p + 12 + c.data.length) (tableStep p table c) rest

/-- The `{start, dataOffset, size}` of the first `IDAT` chunk of a chunk list
whose first chunk starts at position `p`. -/
def firstIdatEntry (p : Int) : List RawChunk → Option PngChunk
  | [] => none
  | c :: rest =>
    if c.ty = tyIDAT then some ⟨p, p + 8, (c.data.length : Int)⟩
    else firstIdatEntry (p + 12 + c.data.length) rest

example :
    readChunksFuel (buildPng [⟨tyIDAT, [7], [1, 2, 3, 4]⟩]) 2 0 =
      .ok [(tyIDAT, ⟨8, 16, 1⟩)] := by decide
example :
    readChunksFuel (buildPng [⟨tyIDAT, [7], [1, 2, 3, 4]⟩]) 2 0 =
      .ok (tableOf 8 [] [⟨tyIDAT, [7], [1, 2, 3, 4]⟩]) := by decide
example :
    readChunksFuel (buildPng [⟨tyIDAT, [7], [0, 0, 0, 0]⟩, ⟨tyIDAT, [8, 9], [0, 0, 0, 0]⟩,
        ⟨tyPHYS, [0, 0, 0, 1, 0, 0, 0, 1, 1], [0, 0, 0, 0]⟩]) 4 0 =
      .ok [(tyIDAT, ⟨8, 16, 1⟩), (tyPHYS, ⟨35, 43, 9⟩)] := by decide

/-- Byte-wise store: `buf` with `vals` written starting at index `off`
(out-of-range indices leave the buffer unchanged, as `List.set` does). -/
def writeBytes : List Nat → Nat → List Nat → List Nat
  | buf, _, [] => buf
  | buf, off, v :: vs => writeBytes (buf.set off v) (off + 1) vs

/-- The mutable memory visible to `setPhysChunk`: the input buffer
(`view.buffer`) and the freshly allocated 21-byte chunk buffer
(`pHYsData`). -/
structure Mem where
  input : List Nat
  phys : List Nat
deriving DecidableEq

/-- A `pHYsView.set*` call: every `DataView` write of `setPhysChunk` goes
through `pHYsView`, whose backing store is `pHYsData`, so it updates the
`phys` component only. -/
def Mem.writePhys (m : Mem) (off : Nat) (vals : List Nat) : Mem :=
  ⟨m.input, writeBytes m.phys off vals⟩

/-- Explicit-state embedding of `setPhysChunk` (src/lib/image/png.ts:214-269):
the same computation as `setPhysChunkRes`, but with every buffer write of the
source performed one `DataView` call at a time on an explicit memory, in
source order: `setUint32(0, 9)`, the four type bytes at 4..7,
`setInt32(8, dpi)`, `setInt32(12, dpi)`, `setInt8(16, 1)`, and
`setInt32(17, calculateCRC(pHYsData.slice(4, 17)))`.  Returns the final
memory together with the function result. -/
def setPhysChunkMem (m : Mem) (dpr : ℚ) (fuel : Nat) : Mem × JsResult (List Nat) :=
  match findChunkRes m.input tyPHYS fuel with
  | .thrown => (m, .thrown)
  | .timeout => (m, .timeout)
  | .ok physChunk =>
    match findChunkRes m.input tyIDAT fuel with
    | .thrown => (m, .thrown)
    | .timeout => (m, .timeout)
    | .ok idatChunk =>
      let r := physTargetRange physChunk idatChunk
      let m1 := m.writePhys 0 (u32be 9)
      let m2 := m1.writePhys 4 tyPHYS
      let dpi := physDpiBits dpr
      let m3 := m2.writePhys 8 (u32be dpi)
      let m4 := m3.writePhys 12 (u32be dpi)
      let m5 := m4.writePhys 16 [1]
      let crcData := (m5.phys.drop 4).take 13
      let m6 := m5.writePhys 17 (u32be (calculateCRC crcData 0))
      (m6, .ok (jsSliceTo m6.input r.1 ++ m6.phys ++ jsSliceFrom m6.input (r.1 + r.2)))

example :
    (setPhysChunkMem ⟨buildPng [⟨tyIDAT, [7], [1, 2, 3, 4]⟩], List.replicate 21 0⟩ 1 2).2 =
      setPhysChunkRes (buildPng [⟨tyIDAT, [7], [1, 2, 3, 4]⟩]) 1 2 := by decide

/-! ### Reading lemmas -/

theorem getU8?_nat_lt (buf : List Nat) (k : Nat) (h : k < buf.length) :
    getU8? buf (k : Int) = some buf[k] := by
  unfold getU8?
  rw [dif_pos]
  · simp
  · constructor
    · exact Int.natCast_nonneg k
    · simpa using h

theorem getU8?_nat_ge (buf : List Nat) (k : Nat) (h : buf.length ≤ k) :
    getU8? buf (k : Int) = none := by
  unfold getU8?
  rw [dif_neg]
  intro hc
  simp at hc
  omega

theorem getU8?_append_at (pre l2 : List Nat) (k : Nat) (hk : k < l2.length) :
    getU8? (pre ++ l2) ((pre.length : Int) + k) = some l2[k] := by
  have hcast : (pre.length : Int) + k = ((pre.length + k : Nat) : Int) := by push_cast; ring
  rw [hcast, getU8?_nat_lt (pre ++ l2) (pre.length + k) (by simp; omega)]
  congr 1
  rw [List.getElem_append_right (by omega)]
  congr 1
  omega

theorem getU8?_append_left (l1 l2 : List Nat) (k : Nat) (h : k < l1.length) :
    getU8? (l1 ++ l2) (k : Int) = some l1[k] := by
  rw [getU8?_nat_lt (l1 ++ l2) k (by simp; omega)]
  congr 1
  exact List.getElem_append_left h

theorem getU32?_append (pre rest : List Nat) (b0 b1 b2 b3 : Nat) :
    getU32? (pre ++ (b0 :: b1 :: b2 :: b3 :: rest)) (pre.length : Int) =
      some (b0 * 16777216 + b1 * 65536 + b2 * 256 + b3) := by
  have h0 := getU8?_append_at pre (b0 :: b1 :: b2 :: b3 :: rest) 0 (by simp)
  have h1 := getU8?_append_at pre (b0 :: b1 :: b2 :: b3 :: rest) 1 (by simp)
  have h2 := getU8?_append_at pre (b0 :: b1 :: b2 :: b3 :: rest) 2 (by simp)
  have h3 := getU8?_append_at pre (b0 :: b1 :: b2 :: b3 :: rest) 3 (by simp)
  simp only [Nat.cast_zero, add_zero, Nat.cast_one, Nat.cast_ofNat] at h0 h1 h2 h3
  unfold getU32?
  rw [h0]
  simp only [Option.bind_eq_bind, Option.some_bind]
  rw [h1, h2, h3]
  simp

theorem getI32?_append (pre rest : List Nat) (n : Nat) (hn : n < 2147483648) :
    getI32? (pre ++ (u32be n ++ rest)) (pre.length : Int) = some (n : Int) := by
  have hb : u32be n ++ rest = n / 16777216 % 256 :: n / 65536 % 256 :: n / 256 % 256 ::
      n % 256 :: rest := by simp [u32be]
  unfold getI32?
  rw [hb, getU32?_append]
  have hval : n / 16777216 % 256 * 16777216 + n / 65536 % 256 * 65536 +
      n / 256 % 256 * 256 + n % 256 = n := by omega
  rw [hval]
  simp [hn]

theorem getChunkType?_append (pre rest : List Nat) (t0 t1 t2 t3 : Nat) :
    getChunkType? (pre ++ (t0 :: t1 :: t2 :: t3 :: rest)) (pre.length : Int) =
      some [t0, t1, t2, t3] := by
  have h0 := getU8?_append_at pre (t0 :: t1 :: t2 :: t3 :: rest) 0 (by simp)
  have h1 := getU8?_append_at pre (t0 :: t1 :: t2 :: t3 :: rest) 1 (by simp)
  have h2 := getU8?_append_at pre (t0 :: t1 :: t2 :: t3 :: rest) 2 (by simp)
  have h3 := getU8?_append_at pre (t0 :: t1 :: t2 :: t3 :: rest) 3 (by simp)
  simp only [Nat.cast_zero, add_zero, Nat.cast_one, Nat.cast_ofNat] at h0 h1 h2 h3
  unfold getChunkType?
  rw [h0]
  simp only [Option.bind_eq_bind, Option.some_bind]
  rw [h1, h2, h3]
  simp

theorem isPngAux_iff (buf : List Nat) (offset : Int) :
    ∀ (sig : List Nat) (i0 : Int),
      isPngAux buf offset sig i0 = true ↔
        ∀ k : Nat, k < sig.length → getU8? buf (offset + i0 + k) = some (sig.getD k 0)
  | [], i0 => by simp [isPngAux]
  | b :: rest, i0 => by
    unfold isPngAux
    cases hv : getU8? buf (offset + i0) with
    | none =>
      simp only [Bool.false_eq_true, false_iff]
      intro h
      have h0 := h 0 (by simp)
      rw [Nat.cast_zero, add_zero, hv] at h0
      exact Option.noConfusion h0
    | some v =>
      show (if v = b then isPngAux buf offset rest (i0 + 1) else false) = true ↔ _
      by_cases hvb : v = b
      · subst hvb
        rw [if_pos rfl, isPngAux_iff buf offset rest (i0 + 1)]
        constructor
        · intro h k hk
          cases k with
          | zero => simp [hv]
          | succ j =>
            have := h j (by simpa using hk)
            rw [show offset + (i0 + 1) + (j : Int) = offset + i0 + ((j : Nat) + 1 : Nat) by
              push_cast; ring] at this
            simpa using this
        · intro h k hk
          have := h (k + 1) (by simpa using hk)
          rw [show offset + i0 + ((k + 1 : Nat) : Int) = offset + (i0 + 1) + (k : Int) by
            push_cast; ring] at this
          simpa using this
      · rw [if_neg hvb]
        simp only [Bool.false_eq_true, false_iff]
        intro h
        have h0 := h 0 (by simp)
        rw [Nat.cast_zero, add_zero, hv] at h0
        simp at h0
        exact hvb h0

theorem isPng_iff (buf : List Nat) (offset : Int) :
    isPng buf offset = true ↔
      ∀ k : Nat, k < 8 → getU8? buf (offset + k) = some (pngSig.getD k 0) := by
  unfold isPng
  rw [isPngAux_iff]
  constructor
  · intro h k hk
    have := h k (by simpa [pngSig] using hk)
    simpa using this
  · intro h k hk
    have := h k (by simpa [pngSig] using hk)
    simpa using this

theorem isPng_of_sig_append (rest : List Nat) : isPng (pngSig ++ rest) 0 = true := by
  rw [isPng_iff]
  intro k hk
  rw [zero_add, getU8?_append_left pngSig rest k (by simp [pngSig]; omega)]
  interval_cases k <;> simp [pngSig]

/-! ### Scanning a well-formed PNG -/

theorem u32be_length (n : Nat) : (u32be n).length = 4 := rfl

theorem rawChunkBytes_length (c : RawChunk) (hty : c.ty.length = 4) (hcrc : c.crc.length = 4) :
    (rawChunkBytes c).length = 12 + c.data.length := by
  simp [rawChunkBytes, u32be, hty, hcrc]
  omega

theorem ty_eq_four (c : RawChunk) (hty : c.ty.length = 4) :
    ∃ t0 t1 t2 t3, c.ty = [t0, t1, t2, t3] := by
  rcases c with ⟨ty, data, crc⟩
  rcases ty with _ | ⟨t0, _ | ⟨t1, _ | ⟨t2, _ | ⟨t3, _ | _⟩⟩⟩⟩ <;> simp_all

theorem readChunksLoop_cons (pre suf : List Nat) (c : RawChunk) (fuel : Nat) (table : ChunkTable)
    (hty : c.ty.length = 4) (hlen : c.data.length < 2147483648) (hne : c.ty ≠ tyIEND) :
    readChunksLoop (pre ++ (rawChunkBytes c ++ suf)) (fuel + 1) (pre.length : Int) table =
      readChunksLoop (pre ++ (rawChunkBytes c ++ suf)) fuel
        ((pre.length : Int) + 4 + (c.data.length : Int) + 8)
        (tableStep (pre.length : Int) table c) := by
  obtain ⟨t0, t1, t2, t3, hty4⟩ := ty_eq_four c hty
  have hshape : pre ++ (rawChunkBytes c ++ suf) =
      pre ++ (u32be c.data.length ++ (t0 :: t1 :: t2 :: t3 :: (c.data ++ (c.crc ++ suf)))) := by
    simp [rawChunkBytes, hty4]
  have hI32 : getI32? (pre ++ (rawChunkBytes c ++ suf)) (pre.length : Int) =
      some (c.data.length : Int) := by
    rw [hshape]
    exact getI32?_append pre _ c.data.length hlen
  have hTy : getChunkType? (pre ++ (rawChunkBytes c ++ suf)) ((pre.length : Int) + 4) =
      some [t0, t1, t2, t3] := by
    rw [hshape, show pre ++ (u32be c.data.length ++
        (t0 :: t1 :: t2 :: t3 :: (c.data ++ (c.crc ++ suf)))) =
        (pre ++ u32be c.data.length) ++
        (t0 :: t1 :: t2 :: t3 :: (c.data ++ (c.crc ++ suf))) by simp,
      show (pre.length : Int) + 4 = ((pre ++ u32be c.data.length).length : Int) by
        simp [u32be]]
    exact getChunkType?_append _ _ t0 t1 t2 t3
  have hbound : ¬ ((pre.length : Int) > ((pre ++ (rawChunkBytes c ++ suf)).length : Int)) := by
    simp
    positivity
  rw [readChunksLoop, if_neg hbound, hI32, hTy]
  show (if [t0, t1, t2, t3] = tyIDAT ∧ (recGet table tyIDAT).isSome = true then
      readChunksLoop (pre ++ (rawChunkBytes c ++ suf)) fuel
        ((pre.length : Int) + 4 + (c.data.length : Int) + 8) table
    else if [t0, t1, t2, t3] = tyIEND then JsResult.ok table
    else readChunksLoop (pre ++ (rawChunkBytes c ++ suf)) fuel
        ((pre.length : Int) + 4 + (c.data.length : Int) + 8)
        (recSet table [t0, t1, t2, t3]
          ⟨(pre.length : Int), (pre.length : Int) + 8, (c.data.length : Int)⟩)) = _
  rw [hty4] at hne
  unfold tableStep
  rw [hty4]
  by_cases hd : [t0, t1, t2, t3] = tyIDAT ∧ (recGet table tyIDAT).isSome
  · rw [if_pos hd, if_pos hd]
  · rw [if_neg hd, if_neg hd, if_neg hne]

theorem readChunksLoop_iend (pre : List Nat) (fuel : Nat) (table : ChunkTable) :
    readChunksLoop (pre ++ iendBytes) (fuel + 1) (pre.length : Int) table = .ok table := by
  have hshape : pre ++ iendBytes =
      pre ++ (u32be 0 ++ (73 :: 69 :: 78 :: 68 :: ([] ++ ([174, 66, 96, 130] ++ [])))) := by
    simp [iendBytes, tyIEND]
  have hI32 : getI32? (pre ++ iendBytes) (pre.length : Int) = some (0 : Int) := by
    rw [hshape]
    simpa using getI32?_append pre _ 0 (by norm_num)
  have hTy : getChunkType? (pre ++ iendBytes) ((pre.length : Int) + 4) =
      some [73, 69, 78, 68] := by
    rw [hshape, show pre ++ (u32be 0 ++ (73 :: 69 :: 78 :: 68 :: ([] ++ ([174, 66, 96, 130] ++ [])))) =
        (pre ++ u32be 0) ++ (73 :: 69 :: 78 :: 68 :: ([] ++ ([174, 66, 96, 130] ++ []))) by simp,
      show (pre.length : Int) + 4 = ((pre ++ u32be 0).length : Int) by simp [u32be]]
    exact getChunkType?_append _ _ 73 69 78 68
  have hbound : ¬ ((pre.length : Int) > ((pre ++ iendBytes).length : Int)) := by
    simp [iendBytes, u32be, tyIEND]
  rw [readChunksLoop, if_neg hbound, hI32, hTy]
  show (if [73, 69, 78, 68] = tyIDAT ∧ (recGet table tyIDAT).isSome = true then
      readChunksLoop (pre ++ iendBytes) fuel ((pre.length : Int) + 4 + 0 + 8) table
    else if [73, 69, 78, 68] = tyIEND then JsResult.ok table
    else readChunksLoop (pre ++ iendBytes) fuel ((pre.length : Int) + 4 + 0 + 8)
        (recSet table [73, 69, 78, 68] ⟨(pre.length : Int), (pre.length : Int) + 8, 0⟩)) = _
  rw [if_neg (by simp [tyIDAT]), if_pos (by simp [tyIEND])]

theorem readChunksLoop_run (cs : List RawChunk) :
    ∀ (pre : List Nat) (table : ChunkTable) (fuel : Nat),
      (∀ c ∈ cs, c.wf) → cs.length < fuel →
      readChunksLoop (pre ++ (chunksJoin cs ++ iendBytes)) fuel (pre.length : Int) table =
        .ok (tableOf (pre.length : Int) table cs) := by
  induction cs with
  | nil =>
    intro pre table fuel _ hfuel
    cases fuel with
    | zero => omega
    | succ m =>
      rw [show chunksJoin [] ++ iendBytes = iendBytes by simp [chunksJoin]]
      exact readChunksLoop_iend pre m table
  | cons c rest ih =>
    intro pre table fuel hwf hfuel
    have hcwf : c.wf := hwf c (by simp)
    obtain ⟨hty, hcrc, hne, hlen, -⟩ := hcwf
    cases fuel with
    | zero => simp at hfuel
    | succ m =>
      have hshape : chunksJoin (c :: rest) ++ iendBytes =
          rawChunkBytes c ++ (chunksJoin rest ++ iendBytes) := by
        simp [chunksJoin]
      rw [hshape, readChunksLoop_cons pre (chunksJoin rest ++ iendBytes) c m table hty hlen hne]
      have hpos : (pre.length : Int) + 4 + (c.data.length : Int) + 8 =
          (((pre ++ rawChunkBytes c).length : Nat) : Int) := by
        rw [List.length_append, rawChunkBytes_length c hty hcrc]
        push_cast
        ring
      have hassoc : pre ++ (rawChunkBytes c ++ (chunksJoin rest ++ iendBytes)) =
          (pre ++ rawChunkBytes c) ++ (chunksJoin rest ++ iendBytes) := by simp
      rw [hpos, hassoc, ih (pre ++ rawChunkBytes c) (tableStep (pre.length : Int) table c) m
        (fun x hx => hwf x (by simp [hx])) (by simpa using hfuel)]
      rw [tableOf]
      congr 1
      rw [List.length_append, rawChunkBytes_length c hty hcrc]
      push_cast
      ring_nf

theorem readChunks_buildPng (cs : List RawChunk) (fuel : Nat)
    (hwf : ∀ c ∈ cs, c.wf) (hfuel : cs.length < fuel) :
    readChunksFuel (buildPng cs) fuel 0 = .ok (tableOf 8 [] cs) := by
  unfold readChunksFuel buildPng
  rw [if_pos (isPng_of_sig_append _)]
  rw [show (0 : Int) + 8 = ((pngSig.length : Nat) : Int) by simp [pngSig]]
  rw [readChunksLoop_run cs pngSig [] fuel hwf hfuel]
  norm_num [pngSig]

/-! ### Chunk-table lemmas -/

theorem recGet_recSet_self (t : ChunkTable) (k : List Nat) (v : PngChunk) :
    recGet (recSet t k v) k = some v := by
  induction t with
  | nil => simp [recSet, recGet]
  | cons hd rest ih =>
    obtain ⟨k', v'⟩ := hd
    by_cases h : k' = k
    · simp [recSet, recGet, h]
    · simp only [recSet, if_neg h, recGet]
      exact ih

theorem recGet_recSet_ne (t : ChunkTable) (k : List Nat) (v : PngChunk) (k' : List Nat)
    (h : k' ≠ k) : recGet (recSet t k v) k' = recGet t k' := by
  induction t with
  | nil =>
    simp only [recSet, recGet]
    rw [if_neg (fun hc => h hc.symm)]
  | cons hd rest ih =>
    obtain ⟨k'', v''⟩ := hd
    by_cases hk : k'' = k
    · subst hk
      have hset : recSet ((k'', v'') :: rest) k'' v = (k'', v) :: rest := by simp [recSet]
      rw [hset]
      simp only [recGet]
      rw [if_neg (fun hc => h hc.symm), if_neg (fun hc => h hc.symm)]
    · simp only [recSet, if_neg hk, recGet]
      by_cases hk2 : k'' = k'
      · rw [if_pos hk2, if_pos hk2]
      · rw [if_neg hk2, if_neg hk2]
        exact ih

theorem isSome_recGet_recSet (t : ChunkTable) (k : List Nat) (v : PngChunk) (k' : List Nat)
    (h : (recGet t k').isSome) : (recGet (recSet t k v) k').isSome := by
  by_cases hk : k' = k
  · subst hk
    rw [recGet_recSet_self]
    rfl
  · rw [recGet_recSet_ne t k v k' hk]
    exact h

theorem mem_keys_recSet (t : ChunkTable) (k : List Nat) (v : PngChunk) (k' : List Nat) :
    k' ∈ (recSet t k v).map Prod.fst ↔ k' = k ∨ k' ∈ t.map Prod.fst := by
  induction t with
  | nil => simp [recSet]
  | cons hd rest ih =>
    obtain ⟨k'', v''⟩ := hd
    by_cases hk : k'' = k
    · subst hk
      simp [recSet]
    · simp only [recSet, if_neg hk, List.map_cons, List.mem_cons, ih]
      tauto

theorem keys_nodup_recSet (t : ChunkTable) (k : List Nat) (v : PngChunk)
    (h : (t.map Prod.fst).Nodup) : ((recSet t k v).map Prod.fst).Nodup := by
  induction t with
  | nil => simp [recSet]
  | cons hd rest ih =>
    obtain ⟨k'', v''⟩ := hd
    simp only [List.map_cons, List.nodup_cons] at h
    by_cases hk : k'' = k
    · subst hk
      have hset : recSet ((k'', v'') :: rest) k'' v = (k'', v) :: rest := by simp [recSet]
      rw [hset]
      simp only [List.map_cons, List.nodup_cons]
      exact h
    · simp only [recSet, if_neg hk, List.map_cons, List.nodup_cons, mem_keys_recSet]
      constructor
      · rintro (rfl | hc)
        · exact hk rfl
        · exact h.1 hc
      · exact ih h.2

theorem tableOf_keys_nodup (cs : List RawChunk) :
    ∀ (p : Int) (table : ChunkTable), (table.map Prod.fst).Nodup →
      ((tableOf p table cs).map Prod.fst).Nodup := by
  induction cs with
  | nil => intro p table h; exact h
  | cons c rest ih =>
    intro p table h
    rw [tableOf]
    apply ih
    unfold tableStep
    split
    · exact h
    · exact keys_nodup_recSet table c.ty _ h

theorem recGet_tableOf_preserved (cs : List RawChunk) :
    ∀ (p : Int) (table : ChunkTable) (e : PngChunk), recGet table tyIDAT = some e →
      recGet (tableOf p table cs) tyIDAT = some e := by
  induction cs with
  | nil => intro p table e h; exact h
  | cons c rest ih =>
    intro p table e h
    rw [tableOf]
    apply ih
    unfold tableStep
    by_cases hd : c.ty = tyIDAT ∧ (recGet table tyIDAT).isSome
    · rw [if_pos hd]
      exact h
    · rw [if_neg hd]
      have hne : c.ty ≠ tyIDAT := by
        intro hc
        exact hd ⟨hc, by rw [h]; rfl⟩
      rw [recGet_recSet_ne table c.ty _ tyIDAT (fun hc => hne hc.symm)]
      exact h

theorem recGet_tableOf_first_idat (cs : List RawChunk) :
    ∀ (p : Int) (table : ChunkTable), recGet table tyIDAT = none →
      recGet (tableOf p table cs) tyIDAT = firstIdatEntry p cs := by
  induction cs with
  | nil => intro p table h; exact h
  | cons c rest ih =>
    intro p table h
    rw [tableOf, firstIdatEntry]
    by_cases hc : c.ty = tyIDAT
    · rw [if_pos hc]
      unfold tableStep
      rw [if_neg (by rw [h]; simp)]
      apply recGet_tableOf_preserved
      rw [← hc]
      exact recGet_recSet_self table c.ty _
    · rw [if_neg hc]
      apply ih
      unfold tableStep
      rw [if_neg (by intro hd; exact hc hd.1)]
      rw [recGet_recSet_ne table c.ty _ tyIDAT (fun hd => hc hd.symm)]
      exact h

theorem recGet_tableOf_absent (cs : List RawChunk) (ty : List Nat)
    (hty : ty ∉ cs.map RawChunk.ty) :
    ∀ (p : Int) (table : ChunkTable), recGet (tableOf p table cs) ty = recGet table ty := by
  induction cs with
  | nil => intro p table; rfl
  | cons c rest ih =>
    intro p table
    simp only [List.map_cons, List.mem_cons] at hty
    push_neg at hty
    rw [tableOf, ih hty.2]
    unfold tableStep
    split
    · rfl
    · exact recGet_recSet_ne table c.ty _ ty hty.1

theorem isSome_recGet_tableOf (cs : List RawChunk) :
    ∀ (p : Int) (table : ChunkTable) (k : List Nat), (recGet table k).isSome →
      (recGet (tableOf p table cs) k).isSome := by
  induction cs with
  | nil => intro p table k h; exact h
  | cons c rest ih =>
    intro p table k h
    rw [tableOf]
    apply ih
    unfold tableStep
    split
    · exact h
    · exact isSome_recGet_recSet table c.ty _ k h

theorem recGet_tableOf_mem (cs : List RawChunk) (c : RawChunk) (hc : c ∈ cs)
    (hne : c.ty ≠ tyIDAT) :
    ∀ (p : Int) (table : ChunkTable), (recGet (tableOf p table cs) c.ty).isSome := by
  induction cs with
  | nil => simp at hc
  | cons c' rest ih =>
    intro p table
    rw [tableOf]
    rcases List.mem_cons.mp hc with rfl | hmem
    · apply isSome_recGet_tableOf
      unfold tableStep
      rw [if_neg (by intro hd; exact hne hd.1)]
      rw [recGet_recSet_self]
      rfl
    · exact ih hmem _ _

theorem firstIdatEntry_isSome (cs : List RawChunk) (h : tyIDAT ∈ cs.map RawChunk.ty) :
    ∀ p : Int, (firstIdatEntry p cs).isSome := by
  induction cs with
  | nil => simp at h
  | cons c rest ih =>
    intro p
    rw [firstIdatEntry]
    by_cases hc : c.ty = tyIDAT
    · rw [if_pos hc]
      rfl
    · rw [if_neg hc]
      simp only [List.map_cons, List.mem_cons] at h
      rcases h with h | h
      · exact absurd h.symm hc
      · exact ih h _

/-! ### Slice and chunk-length lemmas -/

theorem jsIndex_le (len : Nat) (i : Int) : jsIndex len i ≤ len := by
  unfold jsIndex
  split <;> omega

theorem jsSlice_length_sum (buf : List Nat) (s : Int) :
    (jsSliceTo buf s).length + (jsSliceFrom buf s).length = buf.length := by
  have h := jsIndex_le buf.length s
  simp only [jsSliceTo, jsSliceFrom, List.length_take, List.length_drop]
  omega

theorem physChunkBytes_length (dpr : ℚ) : (physChunkBytes dpr).length = 21 := rfl

theorem setPhysChunkRes_buildPng (cs : List RawChunk) (dpr : ℚ) (fuel : Nat)
    (hwf : ∀ c ∈ cs, c.wf) (hfuel : cs.length < fuel) :
    setPhysChunkRes (buildPng cs) dpr fuel =
      .ok (jsSliceTo (buildPng cs)
            (physTargetRange (recGet (tableOf 8 [] cs) tyPHYS)
              (recGet (tableOf 8 [] cs) tyIDAT)).1
          ++ physChunkBytes dpr
          ++ jsSliceFrom (buildPng cs)
            ((physTargetRange (recGet (tableOf 8 [] cs) tyPHYS)
               (recGet (tableOf 8 [] cs) tyIDAT)).1 +
             (physTargetRange (recGet (tableOf 8 [] cs) tyPHYS)
               (recGet (tableOf 8 [] cs) tyIDAT)).2)) := by
  unfold setPhysChunkRes findChunkRes
  rw [readChunks_buildPng cs fuel hwf hfuel]

/-! ### Claim theorems -/

/-- C8: `isPng` never throws (it is a total Boolean function: the `try/catch`
of the source turns any out-of-range read into `false`); it returns `true`
exactly when all 8 bytes at the offset are in bounds and equal the PNG
signature, and `false` on any mismatch or out-of-bounds read — in particular
on any buffer shorter than 8 bytes. -/
theorem isPng_signature_characterization (buf : List Nat) (off : Int) :
    (isPng buf off = true ↔
      ∀ k : Nat, k < 8 → getU8? buf (off + k) = some (pngSig.getD k 0)) ∧
    (buf.length < 8 → isPng buf 0 = false) := by
  constructor
  · exact isPng_iff buf off
  · intro hlen
    rw [← Bool.not_eq_true, isPng_iff]
    intro h
    have h7 := h 7 (by omega)
    rw [zero_add, getU8?_nat_ge buf 7 (by omega)] at h7
    exact Option.noConfusion h7

theorem isPng_signature_characterization_witness :
    (isPng [137, 80, 78, 71, 13, 10, 26, 10, 0] 0 = true) ∧ isPng [137, 80] 0 = false :=
  ⟨(isPng_signature_characterization [137, 80, 78, 71, 13, 10, 26, 10, 0] 0).1.mpr
      (by decide),
   (isPng_signature_characterization [137, 80] 0).2 (by decide)⟩

/-- A PNG with two `IDAT` chunks (and a trailing `pHYs`), used as the witness
input for duplicate-`IDAT` scanning. -/
def csDup : List RawChunk :=
  [⟨tyIDAT, [7], [0, 0, 0, 0]⟩, ⟨tyIDAT, [8, 9], [0, 0, 0, 0]⟩,
   ⟨tyPHYS, [0, 0, 0, 1, 0, 0, 0, 1, 1], [0, 0, 0, 0]⟩]

/-- C5: on a well-formed PNG with two or more `IDAT` chunks, `readChunks`
returns (does not throw); the table is the position-faithful fold `tableOf`
(each later chunk — also each one after a skipped duplicate `IDAT` — is
entered at its true byte offset); the `IDAT` lookup yields exactly the
first occurrence's `{start, start+8, size}`; the table keys are duplicate-free
(exactly one `IDAT` entry); and every non-`IDAT` chunk of the list is present
in the table. -/
theorem readChunks_keeps_first_idat (cs : List RawChunk) (fuel : Nat)
    (hwf : ∀ c ∈ cs, c.wf) (hfuel : cs.length < fuel)
    (hdup : 2 ≤ (cs.filter (fun c => c.ty = tyIDAT)).length) :
    readChunksFuel (buildPng cs) fuel 0 = .ok (tableOf 8 [] cs) ∧
    recGet (tableOf 8 [] cs) tyIDAT = firstIdatEntry 8 cs ∧
    (firstIdatEntry 8 cs).isSome ∧
    ((tableOf 8 [] cs).map Prod.fst).Nodup ∧
    (∀ c ∈ cs, c.ty ≠ tyIDAT → (recGet (tableOf 8 [] cs) c.ty).isSome) := by
  have hmem : tyIDAT ∈ cs.map RawChunk.ty := by
    have hne : cs.filter (fun c => c.ty = tyIDAT) ≠ [] := by
      intro h
      rw [h] at hdup
      simp at hdup
    obtain ⟨c, hc⟩ := List.exists_mem_of_ne_nil _ hne
    have := List.mem_filter.mp hc
    simp only [decide_eq_true_eq] at this
    exact List.mem_map.mpr ⟨c, this.1, this.2⟩
  refine ⟨readChunks_buildPng cs fuel hwf hfuel,
    recGet_tableOf_first_idat cs 8 [] rfl,
    firstIdatEntry_isSome cs hmem 8,
    tableOf_keys_nodup cs 8 [] (by simp),
    fun c hc hne => recGet_tableOf_mem cs c hc hne 8 []⟩

theorem readChunks_keeps_first_idat_witness :
    ((∀ c ∈ csDup, c.wf) ∧ csDup.length < 4 ∧
      2 ≤ (csDup.filter (fun c => c.ty = tyIDAT)).length) ∧
    readChunksFuel (buildPng csDup) 4 0 = .ok (tableOf 8 [] csDup) ∧
    recGet (tableOf 8 [] csDup) tyIDAT = firstIdatEntry 8 csDup ∧
    (firstIdatEntry 8 csDup).isSome ∧
    ((tableOf 8 [] csDup).map Prod.fst).Nodup ∧
    (∀ c ∈ csDup, c.ty ≠ tyIDAT → (recGet (tableOf 8 [] csDup) c.ty).isSome) :=
  ⟨⟨by decide, by decide, by decide⟩,
   readChunks_keeps_first_idat csDup 4 (by decide) (by decide) (by decide)⟩

/-- C7 (amended): on well-formed PNG buffers — in particular whenever every
length field scanned is nonnegative — `readChunks` terminates in a single
forward pass, within one loop iteration per chunk plus one for `IEND`. -/
theorem readChunks_terminates_on_wellformed (cs : List RawChunk)
    (hwf : ∀ c ∈ cs, c.wf) :
    readChunksFuel (buildPng cs) (cs.length + 1) 0 = .ok (tableOf 8 [] cs) :=
  readChunks_buildPng cs (cs.length + 1) hwf (by omega)

theorem readChunks_terminates_on_wellformed_witness :
    (∀ c ∈ csDup, c.wf) ∧
    readChunksFuel (buildPng csDup) (csDup.length + 1) 0 = .ok (tableOf 8 [] csDup) :=
  ⟨by decide, readChunks_terminates_on_wellformed csDup (by decide)⟩

/-- An adversarial buffer: a valid signature followed by a chunk whose 4-byte
length field holds `-12` (`FF FF FF F4`).  The scan reads `len = -12` and
advances the position by `4 + len + 8 = 0`, so the loop never makes
progress. -/
def advBuf : List Nat := pngSig ++ [255, 255, 255, 244, 65, 65, 65, 65]

/-- The chunk table after the first iteration on `advBuf`; every later
iteration rewrites the same entry and stays at position 8. -/
def advTable : ChunkTable := [([65, 65, 65, 65], ⟨8, 16, -12⟩)]

theorem advBuf_first_step (fuel : Nat) :
    readChunksLoop advBuf (fuel + 1) 8 [] = readChunksLoop advBuf fuel 8 advTable := rfl

theorem advBuf_fixed_step (fuel : Nat) :
    readChunksLoop advBuf (fuel + 1) 8 advTable = readChunksLoop advBuf fuel 8 advTable := rfl

theorem advBuf_loop_timeout : ∀ fuel : Nat, readChunksLoop advBuf fuel 8 advTable = .timeout := by
  intro fuel
  induction fuel with
  | zero => rfl
  | succ n ih =>
    rw [advBuf_fixed_step n]
    exact ih

/-- C7 (counterexample): `readChunks` does not terminate on every input — on
`advBuf` the loop runs forever: no amount of fuel makes it return or throw. -/
theorem readChunks_adversarial_no_result :
    ¬ ∃ fuel : Nat, readChunksFuel advBuf fuel 0 ≠ JsResult.timeout := by
  rintro ⟨fuel, h⟩
  apply h
  unfold readChunksFuel
  rw [if_pos (show isPng advBuf 0 = true from
    isPng_of_sig_append [255, 255, 255, 244, 65, 65, 65, 65])]
  cases fuel with
  | zero => rfl
  | succ n =>
    rw [show (0 : Int) + 8 = 8 by norm_num, advBuf_first_step n]
    exact advBuf_loop_timeout n

/-- C10: `findChunk` throws (for every requested type, propagating the wrapped
`readChunks` failure) whenever the buffer fails the signature check, whereas
on a well-formed PNG that merely lacks the requested chunk type it returns an
absent result without throwing. -/
theorem findChunk_throws_or_absent :
    (∀ (buf : List Nat) (ty : List Nat) (fuel : Nat), isPng buf 0 = false →
      findChunkRes buf ty fuel = .thrown) ∧
    (∀ (cs : List RawChunk) (ty : List Nat) (fuel : Nat), (∀ c ∈ cs, c.wf) →
      cs.length < fuel → ty ∉ cs.map RawChunk.ty →
      findChunkRes (buildPng cs) ty fuel = .ok none) := by
  constructor
  · intro buf ty fuel h
    unfold findChunkRes readChunksFuel
    rw [if_neg (by rw [h]; exact Bool.false_ne_true)]
  · intro cs ty fuel hwf hfuel hty
    unfold findChunkRes
    rw [readChunks_buildPng cs fuel hwf hfuel]
    have habs : recGet (tableOf 8 [] cs) ty = none := recGet_tableOf_absent cs ty hty 8 []
    simp [habs]

theorem findChunk_throws_or_absent_witness :
    (isPng [0, 1, 2] 0 = false ∧ findChunkRes [0, 1, 2] tyIDAT 5 = .thrown) ∧
    findChunkRes (buildPng csDup) tyIEND 4 = .ok none :=
  ⟨⟨by decide, findChunk_throws_or_absent.1 [0, 1, 2] tyIDAT 5 (by decide)⟩,
   findChunk_throws_or_absent.2 csDup tyIEND 4 (by decide) (by decide) (by decide)⟩

/-- C6: on a well-formed PNG without a `pHYs` chunk, `setPhysChunk` inserts
exactly the 21 new chunk bytes: immediately before the first `IDAT` chunk's
start offset when an `IDAT` chunk exists (output length = input length + 21),
and at the fixed fallback offset 46 when neither `pHYs` nor `IDAT` exists
(output length again = input length + 21; `ArrayBuffer.slice` clamps the
offset to the buffer length). -/
theorem setPhys_inserts_before_idat_or_at_46 (cs : List RawChunk) (dpr : ℚ) (fuel : Nat)
    (hwf : ∀ c ∈ cs, c.wf) (hfuel : cs.length < fuel)
    (hnp : tyPHYS ∉ cs.map RawChunk.ty) :
    (tyIDAT ∈ cs.map RawChunk.ty →
      ∃ e : PngChunk, firstIdatEntry 8 cs = some e ∧
        setPhysChunkRes (buildPng cs) dpr fuel =
          .ok (jsSliceTo (buildPng cs) e.start ++ physChunkBytes dpr ++
               jsSliceFrom (buildPng cs) e.start) ∧
        (jsSliceTo (buildPng cs) e.start ++ physChunkBytes dpr ++
           jsSliceFrom (buildPng cs) e.start).length = (buildPng cs).length + 21) ∧
    (tyIDAT ∉ cs.map RawChunk.ty →
      setPhysChunkRes (buildPng cs) dpr fuel =
        .ok (jsSliceTo (buildPng cs) 46 ++ physChunkBytes dpr ++
             jsSliceFrom (buildPng cs) 46) ∧
      (jsSliceTo (buildPng cs) 46 ++ physChunkBytes dpr ++
         jsSliceFrom (buildPng cs) 46).length = (buildPng cs).length + 21) := by
  have hres := setPhysChunkRes_buildPng cs dpr fuel hwf hfuel
  have hphys : recGet (tableOf 8 [] cs) tyPHYS = none :=
    recGet_tableOf_absent cs tyPHYS hnp 8 []
  have hlen21 : ∀ s : Int,
      (jsSliceTo (buildPng cs) s ++ physChunkBytes dpr ++
        jsSliceFrom (buildPng cs) s).length = (buildPng cs).length + 21 := by
    intro s
    have h := jsSlice_length_sum (buildPng cs) s
    simp only [List.length_append, physChunkBytes_length]
    omega
  constructor
  · intro hmem
    have hidat : recGet (tableOf 8 [] cs) tyIDAT = firstIdatEntry 8 cs :=
      recGet_tableOf_first_idat cs 8 [] rfl
    obtain ⟨e, he⟩ := Option.isSome_iff_exists.mp (firstIdatEntry_isSome cs hmem 8)
    refine ⟨e, he, ?_, hlen21 e.start⟩
    rw [hres, hphys, hidat, he]
    unfold physTargetRange
    simp
  · intro hmem
    have hidat : recGet (tableOf 8 [] cs) tyIDAT = none :=
      recGet_tableOf_absent cs tyIDAT hmem 8 []
    refine ⟨?_, hlen21 46⟩
    rw [hres, hphys, hidat]
    unfold physTargetRange
    simp

/-- A PNG with a single `IDAT` chunk and no `pHYs`. -/
def csIdatOnly : List RawChunk := [⟨tyIDAT, [0], [5, 6, 7, 8]⟩]

/-- A PNG with a single `IHDR`-typed chunk: neither `pHYs` nor `IDAT`. -/
def csNoIdat : List RawChunk := [⟨[73, 72, 68, 82], [0, 0, 0, 1, 0, 0, 0, 1, 8], [1, 2, 3, 4]⟩]

theorem setPhys_inserts_before_idat_or_at_46_witness :
    ((∀ c ∈ csIdatOnly, c.wf) ∧ tyPHYS ∉ csIdatOnly.map RawChunk.ty ∧
      tyIDAT ∈ csIdatOnly.map RawChunk.ty ∧
      (∀ c ∈ csNoIdat, c.wf) ∧ tyPHYS ∉ csNoIdat.map RawChunk.ty ∧
      tyIDAT ∉ csNoIdat.map RawChunk.ty) ∧
    (∃ e : PngChunk, firstIdatEntry 8 csIdatOnly = some e ∧
      setPhysChunkRes (buildPng csIdatOnly) 1 2 =
        .ok (jsSliceTo (buildPng csIdatOnly) e.start ++ physChunkBytes 1 ++
             jsSliceFrom (buildPng csIdatOnly) e.start) ∧
      (jsSliceTo (buildPng csIdatOnly) e.start ++ physChunkBytes 1 ++
         jsSliceFrom (buildPng csIdatOnly) e.start).length =
        (buildPng csIdatOnly).length + 21) ∧
    (setPhysChunkRes (buildPng csNoIdat) 1 2 =
        .ok (jsSliceTo (buildPng csNoIdat) 46 ++ physChunkBytes 1 ++
             jsSliceFrom (buildPng csNoIdat) 46) ∧
      (jsSliceTo (buildPng csNoIdat) 46 ++ physChunkBytes 1 ++
         jsSliceFrom (buildPng csNoIdat) 46).length = (buildPng csNoIdat).length + 21) :=
  ⟨⟨by decide, by decide, by decide, by decide, by decide, by decide⟩,
   (setPhys_inserts_before_idat_or_at_46 csIdatOnly 1 2 (by decide) (by decide)
     (by decide)).1 (by decide),
   (setPhys_inserts_before_idat_or_at_46 csNoIdat 1 2 (by decide) (by decide)
     (by decide)).2 (by decide)⟩

/-- C9: `setPhysChunk` never mutates its input.  In the explicit-state
embedding — where every `DataView` write of the source is performed one call
at a time, against the memory holding both the input buffer and the freshly
allocated 21-byte chunk buffer — the input component after the call is
unchanged for every buffer, device-pixel-ratio and fuel, and the returned
value is the newly constructed buffer `setPhysChunkRes` describes. -/
theorem memPhys_final (dpr : ℚ) :
    writeBytes (writeBytes (writeBytes (writeBytes (writeBytes (writeBytes
      (List.replicate 21 0) 0 (u32be 9)) 4 tyPHYS) 8 (u32be (physDpiBits dpr)))
      12 (u32be (physDpiBits dpr))) 16 [1]) 17
      (u32be (calculateCRC (((writeBytes (writeBytes (writeBytes (writeBytes (writeBytes
        (List.replicate 21 0) 0 (u32be 9)) 4 tyPHYS) 8 (u32be (physDpiBits dpr)))
        12 (u32be (physDpiBits dpr))) 16 [1]).drop 4).take 13) 0)) = physChunkBytes dpr := by
  have hsplit : writeBytes (writeBytes (writeBytes (writeBytes (writeBytes
      (List.replicate 21 0) 0 (u32be 9)) 4 tyPHYS) 8 (u32be (physDpiBits dpr)))
      12 (u32be (physDpiBits dpr))) 16 [1] =
      u32be 9 ++ (tyPHYS ++ u32be (physDpiBits dpr) ++ u32be (physDpiBits dpr) ++ [1]) ++
        [0, 0, 0, 0] := rfl
  rw [hsplit]
  have hdata : ((u32be 9 ++ (tyPHYS ++ u32be (physDpiBits dpr) ++ u32be (physDpiBits dpr) ++
      [1]) ++ [0, 0, 0, 0]).drop 4).take 13 =
      tyPHYS ++ u32be (physDpiBits dpr) ++ u32be (physDpiBits dpr) ++ [1] := rfl
  rw [hdata]
  show _ = u32be 9 ++ (tyPHYS ++ u32be (physDpiBits dpr) ++ u32be (physDpiBits dpr) ++ [1]) ++
    u32be (calculateCRC (tyPHYS ++ u32be (physDpiBits dpr) ++ u32be (physDpiBits dpr) ++ [1]) 0)
  generalize calculateCRC (tyPHYS ++ u32be (physDpiBits dpr) ++ u32be (physDpiBits dpr) ++
    [1]) 0 = X
  rfl

theorem setPhysChunk_preserves_input (buf : List Nat) (dpr : ℚ) (fuel : Nat) :
    (setPhysChunkMem ⟨buf, List.replicate 21 0⟩ dpr fuel).1.input = buf ∧
    (setPhysChunkMem ⟨buf, List.replicate 21 0⟩ dpr fuel).2 = setPhysChunkRes buf dpr fuel := by
  unfold setPhysChunkMem setPhysChunkRes
  cases h1 : findChunkRes buf tyPHYS fuel with
  | thrown => exact ⟨rfl, rfl⟩
  | timeout => exact ⟨rfl, rfl⟩
  | ok physChunk =>
    cases h2 : findChunkRes buf tyIDAT fuel with
    | thrown => exact ⟨rfl, rfl⟩
    | timeout => exact ⟨rfl, rfl⟩
    | ok idatChunk =>
      refine ⟨rfl, ?_⟩
      simp only [Mem.writePhys]
      rw [memPhys_final dpr]

/-- Projection of a buffer result onto its length (for stating concrete
output sizes). -/
def resultLength : JsResult (List Nat) → Option Nat
  | .ok out => some out.length
  | .thrown => none
  | .timeout => none

/-- A PNG that already contains a `pHYs` chunk (span 8..28) followed by an
`IDAT` chunk (start 29); 54 bytes in total. -/
def csWithPhys : List RawChunk :=
  [⟨tyPHYS, [0, 0, 11, 19, 0, 0, 11, 19, 1], [1, 2, 3, 4]⟩, ⟨tyIDAT, [0], [5, 6, 7, 8]⟩]

/-- C1 (the code, evaluated at the failing input): on a 54-byte PNG whose
`pHYs` chunk occupies bytes 8..28 and whose `IDAT` starts at 29,
`setPhysChunk` selects the `IDAT` start with a zero-length replacement range
(the `IDAT` branch is not guarded by the absence of a `pHYs` chunk), keeping
the old `pHYs` chunk and inserting a new 21-byte one, so the output is 75
bytes — not 54. -/
theorem setPhys_existing_phys_grows_buffer :
    (buildPng csWithPhys).length = 54 ∧
    setPhysChunkRes (buildPng csWithPhys) 2 3 =
      .ok (jsSliceTo (buildPng csWithPhys) 29 ++ physChunkBytes 2 ++
           jsSliceFrom (buildPng csWithPhys) 29) ∧
    resultLength (setPhysChunkRes (buildPng csWithPhys) 2 3) = some 75 := by decide

/-- C2 (the code, evaluated at the failing input): with the default `previous`
of `0` the accumulator starts at `0`, not at all-ones, so `calculateCRC`
disagrees with the canonical zlib/PNG CRC32 — already on the single byte
`0x00` the code yields `0xffffffff` while the canonical checksum is
`0xd202ef8d`. -/
theorem calculateCRC_not_canonical :
    calculateCRC [0] 0 = 0xffffffff ∧ crc32Spec [0] = 0xd202ef8d ∧
    calculateCRC [0] 0 ≠ crc32Spec [0] := by decide

/-- The round-trip value: `setPhysChunk` with `dpr = 1` on a PNG whose `IDAT`
starts at 8, then `parsePhys` on the 9-byte payload the new chunk carries
(at offset `8 + 8 = 16` of the output). -/
def physRoundtrip : JsResult PhysicalDimensions :=
  match setPhysChunkRes (buildPng csIdatOnly) 1 2 with
  | .ok out => parsePhys out 16
  | .thrown => .thrown
  | .timeout => .timeout

/-- C3 (the code, evaluated at the failing input): at `dpr = 1` the payload
written by `setPhysChunk` parses back as `ppux = ppuy = 2835` — `setInt32`
truncates `2835.5` toward zero rather than rounding to `2836` — and
`unit = 0`, because `parsePhys` reads the unit byte at `offset + 4` (the most
significant byte of `ppuy`) instead of `offset + 8`.  The claimed
`⟨2836, 2836, 1⟩` is not produced. -/
theorem physRoundtrip_values :
    physRoundtrip = .ok ⟨2835, 2835, 0⟩ ∧
    physRoundtrip ≠ .ok ⟨2836, 2836, 1⟩ := by decide

/-- C4 (the code, evaluated at the failing input): on the 9-byte payload
`00 00 00 01 00 00 00 02 01` at offset 0, `parsePhys` returns `ppux = 1` and
`ppuy = 2` as claimed, but `unit = 0` — the byte at `offset + 4` (the most
significant byte of `ppuy`) — instead of the ninth payload byte `1` at
`offset + 8`. -/
theorem parsePhys_unit_misread :
    parsePhys [0, 0, 0, 1, 0, 0, 0, 2, 1] 0 = .ok ⟨1, 2, 0⟩ ∧
    parsePhys [0, 0, 0, 1, 0, 0, 0, 2, 1] 0 ≠ .ok ⟨1, 2, 1⟩ := by decide
